import Mathlib

set_option maxRecDepth 2000

/-!
Formal model of the StatArb pair-trading engine.

Prices, spreads and z-scores are modelled over `ℚ`; a floating-point NaN
(undefined value) is modelled as `none` in `Option ℚ`, and every comparison
against a NaN is false, matching IEEE semantics used by the Python source.
Positions are modelled over `ℤ`.
-/

/-! ### Signal generator (src/signal_generator.py, `generate_signals`)

The z-score series is taken as the input of the state machine (in the source
it is produced by `calculate_zscore`; early windows and zero-std windows give
NaN, modelled as `none`).  The source's `entry_zscore` local variable is
tracked but never emitted nor read by any downstream computation, so it is
omitted from the model.
-/

structure SigParams where
  entry_threshold : ℚ
  exit_threshold : ℚ
  stop_loss : ℚ
deriving DecidableEq

/-- One row of the signals table: recorded position, entry flag, exit flag. -/
structure SigRow where
  position : ℤ
  entry_signal : ℤ
  exit_signal : ℤ
deriving DecidableEq

/-- The comparison `z < c` where `z` may be NaN (`none`): false on NaN. -/
def zlt : Option ℚ → ℚ → Bool
  | none, _ => false
  | some v, c => decide (v < c)

/-- The comparison `z > c` where `z` may be NaN (`none`): false on NaN. -/
def zgt : Option ℚ → ℚ → Bool
  | none, _ => false
  | some v, c => decide (c < v)

/-- One iteration of the loop body of `generate_signals`: from the carried
`current_position` and the period's z-score, produce the new carried position
and the recorded `SigRow`.  Mirrors the `if current_position == 0 / == 1 /
== -1` branches of the source; an unmatched position leaves the row at its
initialized zeros. -/
def stepSignal (P : SigParams) (pos : ℤ) (z : Option ℚ) : ℤ × SigRow :=
  if pos = 0 then
    if zlt z (-P.entry_threshold) then (1, ⟨1, 1, 0⟩)
    else if zgt z P.entry_threshold then (-1, ⟨-1, -1, 0⟩)
    else (0, ⟨0, 0, 0⟩)
  else if pos = 1 then
    if zlt z (-P.stop_loss) then (0, ⟨0, 0, 1⟩)
    else if zgt z (-P.exit_threshold) then (0, ⟨0, 0, 1⟩)
    else (1, ⟨1, 0, 0⟩)
  else if pos = -1 then
    if zgt z P.stop_loss then (0, ⟨0, 0, 1⟩)
    else if zlt z P.exit_threshold then (0, ⟨0, 0, 1⟩)
    else (-1, ⟨-1, 0, 0⟩)
  else (pos, ⟨0, 0, 0⟩)

/-- The rows recorded by the loop of `generate_signals`, starting from the
carried position `pos`. -/
def signalRows (P : SigParams) : ℤ → List (Option ℚ) → List SigRow
  | _, [] => []
  | pos, z :: zs => (stepSignal P pos z).2 :: signalRows P (stepSignal P pos z).1 zs

/-- `generate_signals`: the loop starts from `current_position = 0`. -/
def generate_signals (P : SigParams) (zs : List (Option ℚ)) : List SigRow :=
  signalRows P 0 zs

/-- The carried `current_position` after consuming a list of z-scores. -/
def runState (P : SigParams) : ℤ → List (Option ℚ) → ℤ
  | pos, [] => pos
  | pos, z :: zs => runState P (stepSignal P pos z).1 zs

/-- The carried `current_position` entering period `i` (state after the
first `i` periods), starting from `Flat`. -/
def stateAt (P : SigParams) (zs : List (Option ℚ)) (i : ℕ) : ℤ :=
  runState P 0 (zs.take i)

/-- The recorded position on the row immediately preceding row `i`
(`0`, the initial flat state, when `i = 0`). -/
def prev_position (P : SigParams) (zs : List (Option ℚ)) (i : ℕ) : ℤ :=
  if i = 0 then 0 else
    match (generate_signals P zs).get? (i - 1) with
    | none => 0
    | some r => r.position

example :
    generate_signals ⟨2, 1/2, 3⟩ [none, some (-5/2), some (-1), some 0] =
      [⟨0, 0, 0⟩, ⟨1, 1, 0⟩, ⟨1, 0, 0⟩, ⟨0, 0, 1⟩] := by with_unfolding_all decide

example :
    generate_signals ⟨2, 1/2, 3⟩ [some (5/2), some (7/2)] =
      [⟨-1, -1, 0⟩, ⟨0, 0, 1⟩] := by with_unfolding_all decide

/-! ### State-machine helper lemmas -/

lemma stepSignal_state_mem (P : SigParams) (pos : ℤ) (z : Option ℚ)
    (h : pos = -1 ∨ pos = 0 ∨ pos = 1) :
    (stepSignal P pos z).1 = -1 ∨ (stepSignal P pos z).1 = 0 ∨ (stepSignal P pos z).1 = 1 := by
  rcases h with h | h | h <;> subst h <;> simp only [stepSignal] <;> split_ifs <;> simp

lemma stepSignal_recorded (P : SigParams) (pos : ℤ) (z : Option ℚ)
    (h : pos = -1 ∨ pos = 0 ∨ pos = 1) :
    ((stepSignal P pos z).2).position = (stepSignal P pos z).1 := by
  rcases h with h | h | h <;> subst h <;> simp only [stepSignal] <;> split_ifs <;> simp

lemma runState_append (P : SigParams) (l₁ l₂ : List (Option ℚ)) :
    ∀ pos, runState P pos (l₁ ++ l₂) = runState P (runState P pos l₁) l₂ := by
  induction l₁ with
  | nil => intro pos; rfl
  | cons z tl ih => intro pos; simp only [List.cons_append, runState]; exact ih _

lemma runState_state_mem (P : SigParams) (l : List (Option ℚ)) :
    ∀ pos, (pos = -1 ∨ pos = 0 ∨ pos = 1) →
      (runState P pos l = -1 ∨ runState P pos l = 0 ∨ runState P pos l = 1) := by
  induction l with
  | nil => intro pos h; exact h
  | cons z tl ih => intro pos h; exact ih _ (stepSignal_state_mem P pos z h)

lemma stateAt_zero (P : SigParams) (zs : List (Option ℚ)) : stateAt P zs 0 = 0 := rfl

lemma stateAt_mem (P : SigParams) (zs : List (Option ℚ)) (i : ℕ) :
    stateAt P zs i = -1 ∨ stateAt P zs i = 0 ∨ stateAt P zs i = 1 :=
  runState_state_mem P (zs.take i) 0 (Or.inr (Or.inl rfl))

lemma stateAt_succ (P : SigParams) (zs : List (Option ℚ)) (i : ℕ) (h : i < zs.length) :
    stateAt P zs (i + 1) = (stepSignal P (stateAt P zs i) (zs.getD i none)).1 := by
  have h1 : zs[i]? = some zs[i] := List.getElem?_eq_getElem h
  have h2 : zs.getD i none = zs[i] := by simp [List.getD_eq_getElem?_getD, h1]
  unfold stateAt
  rw [List.take_succ, h1]
  simp only [Option.toList_some]
  rw [runState_append, h2]
  rfl

lemma signalRows_get? (P : SigParams) :
    ∀ (zs : List (Option ℚ)) (pos : ℤ) (i : ℕ), i < zs.length →
      (signalRows P pos zs).get? i =
        some (stepSignal P (runState P pos (zs.take i)) (zs.getD i none)).2 := by
  intro zs
  induction zs with
  | nil => intro pos i h; simp at h
  | cons z tl ih =>
    intro pos i h
    cases i with
    | zero => rfl
    | succ j =>
      simp only [signalRows, List.get?_cons_succ, List.getD_cons_succ, List.take_succ_cons,
        runState]
      exact ih _ j (by simpa using h)

lemma generate_signals_length (P : SigParams) (zs : List (Option ℚ)) :
    (generate_signals P zs).length = zs.length := by
  show (signalRows P 0 zs).length = zs.length
  generalize (0 : ℤ) = pos
  induction zs generalizing pos with
  | nil => rfl
  | cons z tl ih => simp [signalRows, ih]

lemma step_flat_long (P : SigParams) (z : Option ℚ) :
    ((stepSignal P 0 z).1 = 1 ↔ zlt z (-P.entry_threshold) = true) := by
  simp only [stepSignal, if_pos rfl]
  split_ifs with h1 h2 <;> simp_all

lemma step_flat_short (P : SigParams) (z : Option ℚ) (he : 0 ≤ P.entry_threshold) :
    ((stepSignal P 0 z).1 = -1 ↔ zgt z P.entry_threshold = true) := by
  cases z with
  | none => simp [stepSignal, zlt, zgt]
  | some v =>
    unfold stepSignal
    rw [if_pos (show (0 : ℤ) = 0 from rfl)]
    simp only [zlt, zgt, decide_eq_true_eq]
    split_ifs with h1 h2
    · simp only [show ((1 : ℤ) = -1) = False by simp, false_iff]
      intro hv
      linarith
    · simpa using h2
    · simp only [show ((0 : ℤ) = -1) = False by simp, false_iff]
      exact h2

lemma step_long_exit (P : SigParams) (z : Option ℚ) :
    ((stepSignal P 1 z).1 = 0 ↔
      (zlt z (-P.stop_loss) || zgt z (-P.exit_threshold)) = true) := by
  have h1 : ((1 : ℤ) = 0) = False := by simp
  simp only [stepSignal, h1, if_false, if_pos rfl]
  split_ifs with ha hb <;> simp_all

lemma step_short_exit (P : SigParams) (z : Option ℚ) :
    ((stepSignal P (-1) z).1 = 0 ↔
      (zgt z P.stop_loss || zlt z P.exit_threshold) = true) := by
  have h1 : ((-1 : ℤ) = 0) = False := by simp
  have h2 : ((-1 : ℤ) = 1) = False := by simp
  simp only [stepSignal, h1, h2, if_false, if_pos rfl]
  split_ifs with ha hb <;> simp_all

lemma step_nan (P : SigParams) (pos : ℤ) (h : pos = -1 ∨ pos = 0 ∨ pos = 1) :
    (stepSignal P pos none).1 = pos := by
  rcases h with h | h | h <;> subst h <;> simp [stepSignal, zlt, zgt]

lemma step_flat_entry_eq (P : SigParams) (he : 0 ≤ P.entry_threshold) :
    (stepSignal P 0 (some (-P.entry_threshold))).1 = 0 ∧
      (stepSignal P 0 (some P.entry_threshold)).1 = 0 := by
  constructor <;>
    · simp only [stepSignal, if_pos rfl, zlt, zgt, decide_eq_true_eq]
      split_ifs with h1 h2 <;> first | rfl | linarith

lemma step_long_threshold_eq (P : SigParams) (hxs : P.exit_threshold ≤ P.stop_loss) :
    (stepSignal P 1 (some (-P.stop_loss))).1 = 1 ∧
      (stepSignal P 1 (some (-P.exit_threshold))).1 = 1 := by
  have h1 : ((1 : ℤ) = 0) = False := by simp
  constructor <;>
    · simp only [stepSignal, h1, if_false, if_pos rfl, zlt, zgt, decide_eq_true_eq]
      split_ifs with ha hb <;> first | rfl | linarith

lemma step_short_threshold_eq (P : SigParams) (hxs : P.exit_threshold ≤ P.stop_loss) :
    (stepSignal P (-1) (some P.stop_loss)).1 = -1 ∧
      (stepSignal P (-1) (some P.exit_threshold)).1 = -1 := by
  have h1 : ((-1 : ℤ) = 0) = False := by simp
  have h2 : ((-1 : ℤ) = 1) = False := by simp
  constructor <;>
    · simp only [stepSignal, h1, h2, if_false, if_pos rfl, zlt, zgt, decide_eq_true_eq]
      split_ifs with ha hb <;> first | rfl | linarith

/-- C1: the signal state machine of `generate_signals`, evaluated in timestamp
order starting from `Flat` (state 0), follows exactly these transitions with
strict inequalities: Flat→Long iff z < −entry_threshold, Flat→Short iff
z > entry_threshold, Long→Flat iff z < −stop_loss or z > −exit_threshold,
Short→Flat iff z > stop_loss or z < exit_threshold; an undefined (NaN)
z-score, and exact equality with any compared threshold, leaves the state
(and the recorded position, which always equals the post-step state) unchanged. -/
theorem C1_signal_state_machine (P : SigParams)
    (he : 0 ≤ P.entry_threshold) (hxs : P.exit_threshold ≤ P.stop_loss)
    (zs : List (Option ℚ)) :
    stateAt P zs 0 = 0 ∧
    ∀ i, i < zs.length →
      ((generate_signals P zs).get? i =
          some (stepSignal P (stateAt P zs i) (zs.getD i none)).2 ∧
       ((stepSignal P (stateAt P zs i) (zs.getD i none)).2).position = stateAt P zs (i + 1) ∧
       (stateAt P zs i = 0 →
          ((stateAt P zs (i + 1) = 1 ↔ zlt (zs.getD i none) (-P.entry_threshold) = true) ∧
           (stateAt P zs (i + 1) = -1 ↔ zgt (zs.getD i none) P.entry_threshold = true))) ∧
       (stateAt P zs i = 1 →
          (stateAt P zs (i + 1) = 0 ↔
            (zlt (zs.getD i none) (-P.stop_loss) ||
              zgt (zs.getD i none) (-P.exit_threshold)) = true)) ∧
       (stateAt P zs i = -1 →
          (stateAt P zs (i + 1) = 0 ↔
            (zgt (zs.getD i none) P.stop_loss ||
              zlt (zs.getD i none) P.exit_threshold) = true)) ∧
       (zs.getD i none = none → stateAt P zs (i + 1) = stateAt P zs i) ∧
       (stateAt P zs i = 0 →
          (zs.getD i none = some (-P.entry_threshold) ∨
            zs.getD i none = some P.entry_threshold) →
          stateAt P zs (i + 1) = stateAt P zs i) ∧
       (stateAt P zs i = 1 →
          (zs.getD i none = some (-P.stop_loss) ∨
            zs.getD i none = some (-P.exit_threshold)) →
          stateAt P zs (i + 1) = stateAt P zs i) ∧
       (stateAt P zs i = -1 →
          (zs.getD i none = some P.stop_loss ∨
            zs.getD i none = some P.exit_threshold) →
          stateAt P zs (i + 1) = stateAt P zs i)) := by
  refine ⟨rfl, fun i hi => ?_⟩
  have hsucc := stateAt_succ P zs i hi
  refine ⟨?_, ?_, ?_, ?_, ?_, ?_, ?_, ?_, ?_⟩
  · simpa [generate_signals, stateAt] using signalRows_get? P zs 0 i hi
  · rw [hsucc]
    exact stepSignal_recorded P _ _ (stateAt_mem P zs i)
  · intro h0
    rw [hsucc, h0]
    exact ⟨step_flat_long P _, step_flat_short P _ he⟩
  · intro h1
    rw [hsucc, h1]
    exact step_long_exit P _
  · intro h1
    rw [hsucc, h1]
    exact step_short_exit P _
  · intro hn
    rw [hsucc, hn]
    exact step_nan P _ (stateAt_mem P zs i)
  · intro h0 hc
    rw [hsucc, h0]
    rcases hc with hc | hc <;> rw [hc]
    exacts [(step_flat_entry_eq P he).1, (step_flat_entry_eq P he).2]
  · intro h1 hc
    rw [hsucc, h1]
    rcases hc with hc | hc <;> rw [hc]
    exacts [(step_long_threshold_eq P hxs).1, (step_long_threshold_eq P hxs).2]
  · intro h1 hc
    rw [hsucc, h1]
    rcases hc with hc | hc <;> rw [hc]
    exacts [(step_short_threshold_eq P hxs).1, (step_short_threshold_eq P hxs).2]

/-- Witness for C1 at concrete parameters and z-score series. -/
theorem C1_signal_state_machine_witness :
    stateAt ⟨2, 1, 3⟩ [some (-3), some 0] 0 = 0 := by
  have h := C1_signal_state_machine ⟨2, 1, 3⟩ (by with_unfolding_all decide)
    (by with_unfolding_all decide) [some (-3), some 0]
  exact h.1

/-- The recorded position preceding row `i` when the run starts from carried
position `pos` (that starting position itself when `i = 0`). -/
def prevRowFrom (P : SigParams) (pos : ℤ) (zs : List (Option ℚ)) (i : ℕ) : ℤ :=
  if i = 0 then pos else
    match (signalRows P pos zs).get? (i - 1) with
    | none => 0
    | some r => r.position

lemma prev_position_eq (P : SigParams) (zs : List (Option ℚ)) (i : ℕ) :
    prev_position P zs i = prevRowFrom P 0 zs i := rfl

lemma prevRowFrom_cons (P : SigParams) (pos : ℤ) (z : Option ℚ) (tl : List (Option ℚ))
    (i : ℕ) (hpos : pos = -1 ∨ pos = 0 ∨ pos = 1) :
    prevRowFrom P pos (z :: tl) (i + 1) = prevRowFrom P (stepSignal P pos z).1 tl i := by
  cases i with
  | zero =>
    simp only [prevRowFrom, if_neg (Nat.succ_ne_zero 0), if_pos rfl, Nat.succ_sub_one,
      signalRows, List.get?_cons_zero]
    exact stepSignal_recorded P pos z hpos
  | succ j =>
    simp only [prevRowFrom, if_neg (Nat.succ_ne_zero _), Nat.succ_sub_one, signalRows,
      List.get?_cons_succ]

lemma signalRows_invariant (P : SigParams) :
    ∀ (zs : List (Option ℚ)) (pos : ℤ), (pos = -1 ∨ pos = 0 ∨ pos = 1) →
      ∀ i row, (signalRows P pos zs).get? i = some row →
        (row.position = -1 ∨ row.position = 0 ∨ row.position = 1) ∧
        (row.entry_signal ≠ 0 → row.position ≠ 0 ∧ prevRowFrom P pos zs i = 0) ∧
        (row.exit_signal = 1 → row.position = 0 ∧ prevRowFrom P pos zs i ≠ 0) ∧
        ¬(row.entry_signal ≠ 0 ∧ row.exit_signal ≠ 0) := by
  intro zs
  induction zs with
  | nil => intro pos hpos i row h; simp [signalRows] at h
  | cons z tl ih =>
    intro pos hpos i row h
    cases i with
    | zero =>
      simp only [signalRows, List.get?_cons_zero, Option.some.injEq] at h
      subst h
      have hprev : prevRowFrom P pos (z :: tl) 0 = pos := rfl
      rw [hprev]
      clear ih
      rcases hpos with hp | hp | hp <;> subst hp <;>
        simp only [stepSignal] <;> split_ifs <;> simp_all
    | succ j =>
      simp only [signalRows, List.get?_cons_succ] at h
      have hmem := stepSignal_state_mem P pos z hpos
      have H := ih (stepSignal P pos z).1 hmem j row h
      rw [prevRowFrom_cons P pos z tl j hpos]
      exact H

/-- C2: in every signal sequence produced by `generate_signals`, a row with a
nonzero entry signal has a nonzero recorded position and a preceding recorded
position of 0 (the initial flat state when there is no predecessor), a row
with exit signal 1 has recorded position 0 and a nonzero preceding recorded
position, and no row has both a nonzero entry signal and a nonzero exit
signal. -/
theorem C2_signal_flags_invariant (P : SigParams) (zs : List (Option ℚ)) (i : ℕ)
    (row : SigRow) (h : (generate_signals P zs).get? i = some row) :
    (row.entry_signal ≠ 0 → row.position ≠ 0 ∧ prev_position P zs i = 0) ∧
    (row.exit_signal = 1 → row.position = 0 ∧ prev_position P zs i ≠ 0) ∧
    ¬(row.entry_signal ≠ 0 ∧ row.exit_signal ≠ 0) := by
  have H := signalRows_invariant P zs 0 (Or.inr (Or.inl rfl)) i row h
  rw [prev_position_eq]
  exact ⟨H.2.1, H.2.2.1, H.2.2.2⟩

/-- Witness for C2 at a concrete entry row. -/
theorem C2_signal_flags_invariant_witness :
    ((⟨1, 1, 0⟩ : SigRow).entry_signal ≠ 0 →
      (⟨1, 1, 0⟩ : SigRow).position ≠ 0 ∧ prev_position ⟨2, 1, 3⟩ [some (-3), some 0] 0 = 0) ∧
    ((⟨1, 1, 0⟩ : SigRow).exit_signal = 1 →
      (⟨1, 1, 0⟩ : SigRow).position = 0 ∧ prev_position ⟨2, 1, 3⟩ [some (-3), some 0] 0 ≠ 0) ∧
    ¬((⟨1, 1, 0⟩ : SigRow).entry_signal ≠ 0 ∧ (⟨1, 1, 0⟩ : SigRow).exit_signal ≠ 0) :=
  C2_signal_flags_invariant ⟨2, 1, 3⟩ [some (-3), some 0] 0 ⟨1, 1, 0⟩
    (by with_unfolding_all decide)

/-! ### Backtester (src/backtester.py, `calculate_returns`)

Columns are modelled as functions from the row index `t` to `Option ℚ`
(`none` = NaN).  `signals` contributes only its `position` column to
`calculate_returns`, so the position list is taken directly.  The pandas
`cumprod` used for `cumulative_return` skips NaN entries (`skipna=True`):
a NaN entry stays NaN and later products ignore it, which is mirrored by
treating an undefined `net_return` as factor 1 inside the running product.
A zero previous price would give a non-finite (infinite) return in the
source rather than NaN; theorems about return values therefore restrict to
positive prices. -/

structure BtParams where
  initial_capital : ℚ
  transaction_cost : ℚ
  slippage : ℚ
deriving DecidableEq

/-- Subtraction on possibly-NaN values: NaN propagates. -/
def osub : Option ℚ → Option ℚ → Option ℚ
  | some a, some b => some (a - b)
  | _, _ => none

/-- `prices[symbol].pct_change()` at row `t`: NaN at row 0, otherwise the
simple percentage change `p[t]/p[t-1] - 1`. -/
def pct_change (p : List ℚ) (t : ℕ) : Option ℚ :=
  if t = 0 ∨ p.length ≤ t then none
  else some (p.getD t 0 / p.getD (t - 1) 0 - 1)

/-- The `strategy_return` column: initialized to `0.0`, and for `t ≥ 1`
attributed to the previous row's position (`prev_pos == 0` gives 0,
`prev_pos == 1` gives return2 − return1, any other nonzero gives
return1 − return2, mirroring the source's if/else). -/
def strategy_return (pos : List ℤ) (p1 p2 : List ℚ) (t : ℕ) : Option ℚ :=
  if pos.length ≤ t then none
  else if t = 0 then some 0
  else if pos.getD (t - 1) 0 = 0 then some 0
  else if pos.getD (t - 1) 0 = 1 then osub (pct_change p2 t) (pct_change p1 t)
  else osub (pct_change p1 t) (pct_change p2 t)

/-- The `position_change` column, `position.diff().abs()`: NaN at row 0. -/
def position_change (pos : List ℤ) (t : ℕ) : Option ℚ :=
  if t = 0 ∨ pos.length ≤ t then none
  else some |((pos.getD t 0 : ℚ)) - ((pos.getD (t - 1) 0 : ℚ))|

/-- The `transaction_costs` column: `position_change * transaction_cost`. -/
def transaction_costs (B : BtParams) (pos : List ℤ) (t : ℕ) : Option ℚ :=
  (position_change pos t).map (fun c => c * B.transaction_cost)

/-- The `slippage` column: `position_change * slippage`. -/
def slippage (B : BtParams) (pos : List ℤ) (t : ℕ) : Option ℚ :=
  (position_change pos t).map (fun c => c * B.slippage)

/-- The `net_return` column: `strategy_return - transaction_costs - slippage`. -/
def net_return (B : BtParams) (pos : List ℤ) (p1 p2 : List ℚ) (t : ℕ) : Option ℚ :=
  osub (osub (strategy_return pos p1 p2 t) (transaction_costs B pos t)) (slippage B pos t)

/-- The `cumulative_return` column: `(1 + net_return).cumprod() - 1` with
pandas NaN-skipping semantics (an undefined entry stays undefined and
contributes no factor to later products). -/
def cumulative_return (B : BtParams) (pos : List ℤ) (p1 p2 : List ℚ) (t : ℕ) : Option ℚ :=
  match net_return B pos p1 p2 t with
  | none => none
  | some _ => some
      ((((List.range (t + 1)).map (fun k =>
        match net_return B pos p1 p2 k with
        | none => 1
        | some v => 1 + v)).prod) - 1)

/-- The `portfolio_value` column: `initial_capital * (1 + cumulative_return)`. -/
def portfolio_value (B : BtParams) (pos : List ℤ) (p1 p2 : List ℚ) (t : ℕ) : Option ℚ :=
  (cumulative_return B pos p1 p2 t).map (fun c => B.initial_capital * (1 + c))

example : net_return ⟨10, 0, 0⟩ [0, 1, 1] [1, 2, 4] [1, 3, 3] 2 = some (-1) := by
  with_unfolding_all decide

example : cumulative_return ⟨10, 0, 0⟩ [0, 1, 1] [1, 2, 4] [1, 3, 3] 2 = some (-1) := by
  with_unfolding_all decide

example : net_return ⟨10, 1/100, 0⟩ [0, 1] [1, 2] [1, 3] 1 = some (-(1/100)) := by
  with_unfolding_all decide

lemma pct_change_some (p : List ℚ) (t : ℕ) (ht : 1 ≤ t) (htl : t < p.length) :
    pct_change p t = some (p.getD t 0 / p.getD (t - 1) 0 - 1) := by
  have h : ¬(t = 0 ∨ p.length ≤ t) := by omega
  simp [pct_change, h]

/-- C3: for every row `t ≥ 1`, the strategy return of `calculate_returns` is
attributed to the previous row's position: 0 when it was flat, the simple
percentage return of symbol2 minus that of symbol1 when it was +1, and the
reverse difference when it was −1. -/
theorem C3_strategy_return_attribution (pos : List ℤ) (p1 p2 : List ℚ) (t : ℕ)
    (h1 : p1.length = pos.length) (h2 : p2.length = pos.length)
    (ht : 1 ≤ t) (htl : t < pos.length) :
    (pos.getD (t - 1) 0 = 0 → strategy_return pos p1 p2 t = some 0) ∧
    (pos.getD (t - 1) 0 = 1 → strategy_return pos p1 p2 t =
      some ((p2.getD t 0 / p2.getD (t - 1) 0 - 1) - (p1.getD t 0 / p1.getD (t - 1) 0 - 1))) ∧
    (pos.getD (t - 1) 0 = -1 → strategy_return pos p1 p2 t =
      some ((p1.getD t 0 / p1.getD (t - 1) 0 - 1) - (p2.getD t 0 / p2.getD (t - 1) 0 - 1))) := by
  have hlen : ¬ pos.length ≤ t := by omega
  have ht0 : t ≠ 0 := by omega
  have hr1 := pct_change_some p1 t ht (by omega)
  have hr2 := pct_change_some p2 t ht (by omega)
  refine ⟨fun hp => ?_, fun hp => ?_, fun hp => ?_⟩ <;>
    unfold strategy_return <;> rw [if_neg hlen, if_neg ht0]
  · rw [if_pos hp]
  · have hz : pos.getD (t - 1) 0 ≠ 0 := by rw [hp]; decide
    rw [if_neg hz, if_pos hp, hr1, hr2]
    rfl
  · have hz : pos.getD (t - 1) 0 ≠ 0 := by rw [hp]; decide
    have ho : pos.getD (t - 1) 0 ≠ 1 := by rw [hp]; decide
    rw [if_neg hz, if_neg ho, hr1, hr2]
    rfl

/-- Witness for C3 at a concrete backtest input. -/
theorem C3_strategy_return_attribution_witness :
    ([0, 1, 1].getD (2 - 1) 0 = (1 : ℤ) →
      strategy_return [0, 1, 1] [1, 2, 4] [1, 3, 3] 2 =
        some (((3 : ℚ) / 3 - 1) - ((4 : ℚ) / 2 - 1))) ∧
    ([0, 1, 1].getD (2 - 1) 0 = (0 : ℤ) →
      strategy_return [0, 1, 1] [1, 2, 4] [1, 3, 3] 2 = some 0) := by
  have H := C3_strategy_return_attribution [0, 1, 1] [1, 2, 4] [1, 3, 3] 2
    (by decide) (by decide) (by decide) (by decide)
  exact ⟨fun h => by simpa using H.2.1 h, fun h => H.1 h⟩

lemma strategy_return_some (pos : List ℤ) (p1 p2 : List ℚ) (t : ℕ)
    (h1 : p1.length = pos.length) (h2 : p2.length = pos.length)
    (ht : 1 ≤ t) (htl : t < pos.length) :
    ∃ v, strategy_return pos p1 p2 t = some v := by
  have hlen : ¬ pos.length ≤ t := by omega
  have ht0 : t ≠ 0 := by omega
  have hr1 := pct_change_some p1 t ht (by omega)
  have hr2 := pct_change_some p2 t ht (by omega)
  unfold strategy_return
  rw [if_neg hlen, if_neg ht0]
  split_ifs with hz ho
  · exact ⟨0, rfl⟩
  · rw [hr1, hr2]; exact ⟨_, rfl⟩
  · rw [hr1, hr2]; exact ⟨_, rfl⟩

lemma position_change_some (pos : List ℤ) (t : ℕ) (ht : 1 ≤ t) (htl : t < pos.length) :
    position_change pos t =
      some |((pos.getD t 0 : ℚ)) - ((pos.getD (t - 1) 0 : ℚ))| := by
  have h : ¬(t = 0 ∨ pos.length ≤ t) := by omega
  simp [position_change, h]

lemma net_return_zero_row (B : BtParams) (pos : List ℤ) (p1 p2 : List ℚ) :
    net_return B pos p1 p2 0 = none := by
  have hpc : position_change pos 0 = none := by simp [position_change]
  unfold net_return transaction_costs slippage
  rw [hpc]
  cases osub (strategy_return pos p1 p2 0) ((none : Option ℚ).map fun c => c * B.transaction_cost) <;> rfl

lemma net_return_some (B : BtParams) (pos : List ℤ) (p1 p2 : List ℚ) (t : ℕ)
    (h1 : p1.length = pos.length) (h2 : p2.length = pos.length)
    (ht : 1 ≤ t) (htl : t < pos.length) :
    net_return B pos p1 p2 t =
      some ((strategy_return pos p1 p2 t).getD 0
        - |((pos.getD t 0 : ℚ)) - ((pos.getD (t - 1) 0 : ℚ))| * B.transaction_cost
        - |((pos.getD t 0 : ℚ)) - ((pos.getD (t - 1) 0 : ℚ))| * B.slippage) := by
  obtain ⟨v, hv⟩ := strategy_return_some pos p1 p2 t h1 h2 ht htl
  have hpc := position_change_some pos t ht htl
  unfold net_return transaction_costs slippage
  rw [hpc, hv]
  rfl

lemma cumulative_return_prod (B : BtParams) (pos : List ℤ) (p1 p2 : List ℚ) (t : ℕ)
    (h1 : p1.length = pos.length) (h2 : p2.length = pos.length)
    (ht : 1 ≤ t) (htl : t < pos.length) :
    cumulative_return B pos p1 p2 t =
      some (((List.range t).map
        (fun k => 1 + (net_return B pos p1 p2 (k + 1)).getD 0)).prod - 1) := by
  have hnet : ∀ u, 1 ≤ u → u ≤ t → ∃ w, net_return B pos p1 p2 u = some w := by
    intro u hu hut
    exact ⟨_, net_return_some B pos p1 p2 u h1 h2 hu (by omega)⟩
  obtain ⟨w, hw⟩ := hnet t ht le_rfl
  unfold cumulative_return
  rw [hw]
  have h0 := net_return_zero_row B pos p1 p2
  have key : ∀ k ∈ List.range t,
      ((fun k => match net_return B pos p1 p2 k with
        | none => (1 : ℚ)
        | some v => 1 + v) ∘ Nat.succ) k
        = 1 + (net_return B pos p1 p2 (k + 1)).getD 0 := by
    intro k hk
    rw [List.mem_range] at hk
    obtain ⟨w', hw'⟩ := hnet (k + 1) (by omega) (by omega)
    simp [Function.comp, hw']
  rw [List.range_succ_eq_map, List.map_cons, List.prod_cons, List.map_map,
    List.map_congr_left key, h0]
  simp

/-- C4: for every row `t ≥ 1` of `calculate_returns`: the transaction-cost and
slippage columns equal |position[t] − position[t−1]| times the respective
rate; the net return equals the strategy return minus both cost terms;
the cumulative return is the compounded product of (1 + net_return[k]) over
the defined net returns with k ≤ t, minus 1 (net_return[0] is NaN and is
skipped by the pandas cumprod, so the product runs over k = 1..t); and the
portfolio value is initial_capital × (1 + cumulative_return[t]). -/
theorem C4_costs_and_compounding (B : BtParams) (pos : List ℤ) (p1 p2 : List ℚ) (t : ℕ)
    (h1 : p1.length = pos.length) (h2 : p2.length = pos.length)
    (ht : 1 ≤ t) (htl : t < pos.length) :
    transaction_costs B pos t =
      some (|((pos.getD t 0 : ℚ)) - ((pos.getD (t - 1) 0 : ℚ))| * B.transaction_cost) ∧
    slippage B pos t =
      some (|((pos.getD t 0 : ℚ)) - ((pos.getD (t - 1) 0 : ℚ))| * B.slippage) ∧
    net_return B pos p1 p2 t =
      some ((strategy_return pos p1 p2 t).getD 0
        - |((pos.getD t 0 : ℚ)) - ((pos.getD (t - 1) 0 : ℚ))| * B.transaction_cost
        - |((pos.getD t 0 : ℚ)) - ((pos.getD (t - 1) 0 : ℚ))| * B.slippage) ∧
    cumulative_return B pos p1 p2 t =
      some (((List.range t).map
        (fun k => 1 + (net_return B pos p1 p2 (k + 1)).getD 0)).prod - 1) ∧
    portfolio_value B pos p1 p2 t =
      some (B.initial_capital * (1 + (cumulative_return B pos p1 p2 t).getD 0)) := by
  have hpc := position_change_some pos t ht htl
  have hcum := cumulative_return_prod B pos p1 p2 t h1 h2 ht htl
  refine ⟨?_, ?_, net_return_some B pos p1 p2 t h1 h2 ht htl, hcum, ?_⟩
  · unfold transaction_costs
    rw [hpc]
    rfl
  · unfold slippage
    rw [hpc]
    rfl
  · unfold portfolio_value
    rw [hcum]
    rfl

/-- Witness for C4 at a concrete backtest input. -/
theorem C4_costs_and_compounding_witness :
    transaction_costs ⟨10, 1/100, 1/200⟩ [0, 1] 1 =
      some (|((1 : ℚ)) - ((0 : ℚ))| * (1/100)) :=
  (C4_costs_and_compounding ⟨10, 1/100, 1/200⟩ [0, 1] [1, 2] [1, 3] 1
    (by decide) (by decide) (by decide) (by decide)).1

/-- C8 counterexample: at the very first timestamp `net_return` is NaN
(`position.diff()` has no predecessor, and NaN × 0 is NaN) while
`strategy_return` is the initialized 0, so the two columns differ there even
with zero transaction cost and slippage. -/
theorem C8_counterexample_first_row :
    net_return ⟨100000, 0, 0⟩ [0] [1] [1] 0 ≠ strategy_return [0] [1] [1] 0 := by
  with_unfolding_all decide

/-- C8 amended: with transaction_cost = 0 and slippage = 0, `net_return[t]`
equals `strategy_return[t]` at every timestamp t ≥ 1 (at t = 0 net_return is
NaN while strategy_return is 0). -/
theorem C8_amended_zero_costs (B : BtParams) (pos : List ℤ) (p1 p2 : List ℚ) (t : ℕ)
    (hc : B.transaction_cost = 0) (hs : B.slippage = 0) (ht : 1 ≤ t) :
    net_return B pos p1 p2 t = strategy_return pos p1 p2 t := by
  unfold net_return transaction_costs slippage
  by_cases hl : pos.length ≤ t
  · have hpc : position_change pos t = none := by simp [position_change, Or.inr hl]
    have hsr : strategy_return pos p1 p2 t = none := by
      unfold strategy_return
      rw [if_pos hl]
    rw [hpc, hsr]
    rfl
  · have hpc := position_change_some pos t ht (by omega)
    rw [hpc, hc, hs]
    cases hsr : strategy_return pos p1 p2 t with
    | none => rfl
    | some v =>
      show some (v - _ - _) = some v
      simp only [mul_zero, sub_zero]

/-- Witness for the amended C8 at a concrete input. -/
theorem C8_amended_zero_costs_witness :
    net_return ⟨10, 0, 0⟩ [0, 1, 1] [1, 2, 4] [1, 3, 3] 2 =
      strategy_return [0, 1, 1] [1, 2, 4] [1, 3, 3] 2 :=
  C8_amended_zero_costs ⟨10, 0, 0⟩ [0, 1, 1] [1, 2, 4] [1, 3, 3] 2 rfl rfl (by decide)

/-- C10: at the very first row of `calculate_returns`, the columns
transaction_costs, slippage, net_return, cumulative_return and
portfolio_value are all NaN (the position difference has no predecessor and
NaN propagates through the products and the NaN-skipping cumprod leaves row 0
NaN), while strategy_return is the initialized 0; for every row t ≥ 1 all of
these columns are defined.  Prices are positive by the input contract. -/
theorem C10_first_row_undefined (B : BtParams) (pos : List ℤ) (p1 p2 : List ℚ)
    (h1 : p1.length = pos.length) (h2 : p2.length = pos.length)
    (hn : 0 < pos.length)
    (hp1 : ∀ x ∈ p1, 0 < x) (hp2 : ∀ x ∈ p2, 0 < x) :
    strategy_return pos p1 p2 0 = some 0 ∧
    transaction_costs B pos 0 = none ∧
    slippage B pos 0 = none ∧
    net_return B pos p1 p2 0 = none ∧
    cumulative_return B pos p1 p2 0 = none ∧
    portfolio_value B pos p1 p2 0 = none ∧
    ∀ t, 1 ≤ t → t < pos.length →
      (transaction_costs B pos t).isSome ∧
      (slippage B pos t).isSome ∧
      (net_return B pos p1 p2 t).isSome ∧
      (cumulative_return B pos p1 p2 t).isSome ∧
      (portfolio_value B pos p1 p2 t).isSome := by
  have hpc0 : position_change pos 0 = none := by simp [position_change]
  have hnet0 := net_return_zero_row B pos p1 p2
  have hcum0 : cumulative_return B pos p1 p2 0 = none := by
    unfold cumulative_return
    rw [hnet0]
  refine ⟨?_, ?_, ?_, hnet0, hcum0, ?_, ?_⟩
  · unfold strategy_return
    rw [if_neg (by omega), if_pos rfl]
  · unfold transaction_costs
    rw [hpc0]
    rfl
  · unfold slippage
    rw [hpc0]
    rfl
  · unfold portfolio_value
    rw [hcum0]
    rfl
  · intro t ht htl
    have hpc := position_change_some pos t ht htl
    have hnet := net_return_some B pos p1 p2 t h1 h2 ht htl
    have hcum := cumulative_return_prod B pos p1 p2 t h1 h2 ht htl
    refine ⟨?_, ?_, ?_, ?_, ?_⟩
    · unfold transaction_costs
      rw [hpc]
      rfl
    · unfold slippage
      rw [hpc]
      rfl
    · rw [hnet]
      rfl
    · rw [hcum]
      rfl
    · unfold portfolio_value
      rw [hcum]
      rfl

/-- Witness for C10 at a concrete input. -/
theorem C10_first_row_undefined_witness :
    strategy_return [0, 1] [1, 2] [1, 3] 0 = some 0 ∧
    transaction_costs ⟨10, 1/100, 1/200⟩ [0, 1] 0 = none ∧
    slippage ⟨10, 1/100, 1/200⟩ [0, 1] 0 = none ∧
    net_return ⟨10, 1/100, 1/200⟩ [0, 1] [1, 2] [1, 3] 0 = none ∧
    cumulative_return ⟨10, 1/100, 1/200⟩ [0, 1] [1, 2] [1, 3] 0 = none ∧
    portfolio_value ⟨10, 1/100, 1/200⟩ [0, 1] [1, 2] [1, 3] 0 = none ∧
    ∀ t, 1 ≤ t → t < [(0 : ℤ), 1].length →
      (transaction_costs ⟨10, 1/100, 1/200⟩ [0, 1] t).isSome ∧
      (slippage ⟨10, 1/100, 1/200⟩ [0, 1] t).isSome ∧
      (net_return ⟨10, 1/100, 1/200⟩ [0, 1] [1, 2] [1, 3] t).isSome ∧
      (cumulative_return ⟨10, 1/100, 1/200⟩ [0, 1] [1, 2] [1, 3] t).isSome ∧
      (portfolio_value ⟨10, 1/100, 1/200⟩ [0, 1] [1, 2] [1, 3] t).isSome :=
  C10_first_row_undefined ⟨10, 1/100, 1/200⟩ [0, 1] [1, 2] [1, 3]
    (by decide) (by decide) (by decide) (by decide) (by decide)

/-! ### Performance analyzer (src/performance.py, `calculate_max_drawdown`)

`portfolio_value.expanding().max()` is the prefix maximum;
`idxmin`/`idxmax` return the first index attaining the extremum; the label
slice `portfolio_value[:trough]` is inclusive of the trough row and
`portfolio_value[trough:]` starts at the trough row.  Indices play the role
of timestamp labels. -/

def listMax : List ℚ → ℚ
  | [] => 0
  | x :: xs => xs.foldl max x

def listMin : List ℚ → ℚ
  | [] => 0
  | x :: xs => xs.foldl min x

/-- First index at which the predicate holds (pandas `idxmin`/`idxmax`/first
index of a boolean mask). -/
def firstIdx (p : ℚ → Bool) : List ℚ → Option ℕ
  | [] => none
  | x :: xs => if p x then some 0 else (firstIdx p xs).map (· + 1)

/-- `portfolio_value.expanding().max()` at row `t`. -/
def running_max (v : List ℚ) (t : ℕ) : ℚ := listMax (v.take (t + 1))

/-- `(portfolio_value - running_max) / running_max`. -/
def drawdown (v : List ℚ) : List ℚ :=
  (List.range v.length).map (fun t => (v.getD t 0 - running_max v t) / running_max v t)

/-- `drawdown.min()`. -/
def max_drawdown (v : List ℚ) : ℚ := listMin (drawdown v)

/-- `drawdown.idxmin()` (first row attaining the minimum). -/
def trough_pos (v : List ℚ) : ℕ :=
  (firstIdx (fun d => decide (d = max_drawdown v)) (drawdown v)).getD 0

/-- `portfolio_value[:trough].idxmax()` (inclusive slice, first row attaining
the maximum). -/
def peak_pos (v : List ℚ) : ℕ :=
  (firstIdx (fun x => decide (x = listMax (v.take (trough_pos v + 1))))
    (v.take (trough_pos v + 1))).getD 0

/-- `portfolio_value.loc[peak]`. -/
def peak_value (v : List ℚ) : ℚ := v.getD (peak_pos v) 0

/-- The recovery date: `None` unless the trough is strictly before the last
row, else the first row of `portfolio_value[trough:]` whose value is at least
the peak value (`None` when the mask is empty). -/
def recovery_pos (v : List ℚ) : Option ℕ :=
  if trough_pos v < v.length - 1 then
    (firstIdx (fun x => decide (peak_value v ≤ x)) (v.drop (trough_pos v))).map
      (· + trough_pos v)
  else none

example : max_drawdown [100, 110, 90, 95, 115] = -2/11 := by with_unfolding_all decide
example : trough_pos [100, 110, 90, 95, 115] = 2 := by with_unfolding_all decide
example : peak_pos [100, 110, 90, 95, 115] = 1 := by with_unfolding_all decide
example : peak_value [100, 110, 90, 95, 115] = 110 := by with_unfolding_all decide
example : recovery_pos [100, 110, 90, 95, 115] = some 4 := by with_unfolding_all decide
example : recovery_pos [100, 110, 90, 95] = none := by with_unfolding_all decide

lemma foldl_max_init (l : List ℚ) : ∀ a : ℚ, a ≤ l.foldl max a := by
  induction l with
  | nil => intro a; exact le_refl a
  | cons x xs ih => intro a; exact le_trans (le_max_left a x) (ih (max a x))

lemma foldl_max_mem_le (l : List ℚ) : ∀ a x : ℚ, x ∈ l → x ≤ l.foldl max a := by
  induction l with
  | nil => intro a x hx; simp at hx
  | cons y ys ih =>
    intro a x hx
    rcases List.mem_cons.mp hx with h | h
    · subst h
      exact le_trans (le_max_right a x) (foldl_max_init ys (max a x))
    · exact ih (max a y) x h

lemma foldl_max_cases (l : List ℚ) : ∀ a : ℚ, l.foldl max a = a ∨ l.foldl max a ∈ l := by
  induction l with
  | nil => intro a; exact Or.inl rfl
  | cons x xs ih =>
    intro a
    rcases ih (max a x) with h | h
    · rcases max_choice a x with hm | hm
      · exact Or.inl (by rw [List.foldl_cons, h, hm])
      · exact Or.inr (by rw [List.foldl_cons, h, hm]; exact List.mem_cons_self x xs)
    · exact Or.inr (List.mem_cons_of_mem x h)

lemma listMax_mem (l : List ℚ) (h : l ≠ []) : listMax l ∈ l := by
  cases l with
  | nil => exact absurd rfl h
  | cons x xs =>
    rcases foldl_max_cases xs x with hc | hc
    · rw [listMax, hc]; exact List.mem_cons_self x xs
    · exact List.mem_cons_of_mem x hc

lemma le_listMax (l : List ℚ) (x : ℚ) (hx : x ∈ l) : x ≤ listMax l := by
  cases l with
  | nil => simp at hx
  | cons y ys =>
    rcases List.mem_cons.mp hx with h | h
    · subst h; exact foldl_max_init ys x
    · exact foldl_max_mem_le ys y x h

lemma foldl_min_init (l : List ℚ) : ∀ a : ℚ, l.foldl min a ≤ a := by
  induction l with
  | nil => intro a; exact le_refl a
  | cons x xs ih => intro a; exact le_trans (ih (min a x)) (min_le_left a x)

lemma foldl_min_mem_le (l : List ℚ) : ∀ a x : ℚ, x ∈ l → l.foldl min a ≤ x := by
  induction l with
  | nil => intro a x hx; simp at hx
  | cons y ys ih =>
    intro a x hx
    rcases List.mem_cons.mp hx with h | h
    · subst h
      exact le_trans (foldl_min_init ys (min a x)) (min_le_right a x)
    · exact ih (min a y) x h

lemma foldl_min_cases (l : List ℚ) : ∀ a : ℚ, l.foldl min a = a ∨ l.foldl min a ∈ l := by
  induction l with
  | nil => intro a; exact Or.inl rfl
  | cons x xs ih =>
    intro a
    rcases ih (min a x) with h | h
    · rcases min_choice a x with hm | hm
      · exact Or.inl (by rw [List.foldl_cons, h, hm])
      · exact Or.inr (by rw [List.foldl_cons, h, hm]; exact List.mem_cons_self x xs)
    · exact Or.inr (List.mem_cons_of_mem x h)

lemma listMin_mem (l : List ℚ) (h : l ≠ []) : listMin l ∈ l := by
  cases l with
  | nil => exact absurd rfl h
  | cons x xs =>
    rcases foldl_min_cases xs x with hc | hc
    · rw [listMin, hc]; exact List.mem_cons_self x xs
    · exact List.mem_cons_of_mem x hc

lemma listMin_le (l : List ℚ) (x : ℚ) (hx : x ∈ l) : listMin l ≤ x := by
  cases l with
  | nil => simp at hx
  | cons y ys =>
    rcases List.mem_cons.mp hx with h | h
    · subst h; exact foldl_min_init ys x
    · exact foldl_min_mem_le ys y x h

lemma firstIdx_isSome (p : ℚ → Bool) (l : List ℚ) (h : ∃ x ∈ l, p x = true) :
    (firstIdx p l).isSome := by
  induction l with
  | nil => simp at h
  | cons x xs ih =>
    by_cases hp : p x
    · simp [firstIdx, hp]
    · obtain ⟨y, hy, hpy⟩ := h
      rcases List.mem_cons.mp hy with h' | h'
      · subst h'; exact absurd hpy hp
      · have := ih ⟨y, h', hpy⟩
        simp only [firstIdx, if_neg hp, Option.isSome_map']
        exact this

lemma firstIdx_spec (p : ℚ → Bool) :
    ∀ (l : List ℚ) (i : ℕ), firstIdx p l = some i →
      i < l.length ∧ p (l.getD i 0) = true ∧ ∀ j, j < i → p (l.getD j 0) = false := by
  intro l
  induction l with
  | nil => intro i h; simp [firstIdx] at h
  | cons x xs ih =>
    intro i h
    by_cases hp : p x
    · simp only [firstIdx, if_pos hp, Option.some.injEq] at h
      subst h
      exact ⟨by simp, hp, fun j hj => absurd hj (Nat.not_lt_zero j)⟩
    · simp only [firstIdx, if_neg hp, Option.map_eq_some'] at h
      obtain ⟨i', hi', rfl⟩ := h
      obtain ⟨hlen, hat, hbefore⟩ := ih i' hi'
      refine ⟨by simpa using hlen, by simpa using hat, fun j hj => ?_⟩
      cases j with
      | zero => simpa using (Bool.not_eq_true _).mp hp
      | succ j' => simpa using hbefore j' (by omega)

lemma firstIdx_none (p : ℚ → Bool) :
    ∀ l : List ℚ, firstIdx p l = none → ∀ x ∈ l, p x = false := by
  intro l
  induction l with
  | nil => intro _ x hx; simp at hx
  | cons y ys ih =>
    intro h x hx
    by_cases hp : p y
    · simp [firstIdx, hp] at h
    · simp only [firstIdx, if_neg hp, Option.map_eq_none'] at h
      rcases List.mem_cons.mp hx with h' | h'
      · subst h'; exact (Bool.not_eq_true _).mp hp
      · exact ih h x h'

lemma getD_mem (l : List ℚ) (i : ℕ) (hi : i < l.length) : l.getD i 0 ∈ l := by
  rw [List.getD_eq_getElem?_getD, List.getElem?_eq_getElem hi]
  exact List.getElem_mem hi

lemma take_getD (v : List ℚ) (m k : ℕ) (hk : k < m) : (v.take m).getD k 0 = v.getD k 0 := by
  rw [List.getD_eq_getElem?_getD, List.getD_eq_getElem?_getD, List.getElem?_take, if_pos hk]

lemma drop_getD (v : List ℚ) (n k : ℕ) : (v.drop n).getD k 0 = v.getD (n + k) 0 := by
  rw [List.getD_eq_getElem?_getD, List.getD_eq_getElem?_getD, List.getElem?_drop]

lemma drawdown_length (v : List ℚ) : (drawdown v).length = v.length := by
  simp [drawdown]

lemma drawdown_getD (v : List ℚ) (t : ℕ) (ht : t < v.length) :
    (drawdown v).getD t 0 = (v.getD t 0 - running_max v t) / running_max v t := by
  unfold drawdown
  rw [List.getD_eq_getElem?_getD, List.getElem?_map, List.getElem?_range ht]
  rfl

lemma drawdown_ne_nil (v : List ℚ) (hne : v ≠ []) : drawdown v ≠ [] := by
  intro h
  apply hne
  have hl := drawdown_length v
  rw [h] at hl
  exact List.length_eq_zero.mp hl.symm

lemma take_ne_nil (v : List ℚ) (m : ℕ) (hne : v ≠ []) (hm : 0 < m) : v.take m ≠ [] := by
  intro h
  rw [List.take_eq_nil_iff] at h
  rcases h with h | h
  · omega
  · exact hne h

lemma running_max_pos (v : List ℚ) (hpos : ∀ x ∈ v, 0 < x) (hne : v ≠ []) (t : ℕ) :
    0 < running_max v t := by
  have hmem : listMax (v.take (t + 1)) ∈ v.take (t + 1) :=
    listMax_mem _ (take_ne_nil v (t + 1) hne (by omega))
  exact hpos _ (List.mem_of_mem_take hmem)

lemma trough_firstIdx (v : List ℚ) (hne : v ≠ []) :
    firstIdx (fun d => decide (d = max_drawdown v)) (drawdown v) = some (trough_pos v) := by
  have hs := firstIdx_isSome (fun d => decide (d = max_drawdown v)) (drawdown v)
    ⟨max_drawdown v, listMin_mem _ (drawdown_ne_nil v hne), by simp⟩
  obtain ⟨i, hi⟩ := Option.isSome_iff_exists.mp hs
  rw [hi]
  unfold trough_pos
  rw [hi]
  rfl

lemma trough_lt_length (v : List ℚ) (hne : v ≠ []) : trough_pos v < v.length := by
  have h := (firstIdx_spec _ _ _ (trough_firstIdx v hne)).1
  rwa [drawdown_length] at h

lemma drawdown_at_trough (v : List ℚ) (hne : v ≠ []) :
    (drawdown v).getD (trough_pos v) 0 = max_drawdown v := by
  have h := (firstIdx_spec _ _ _ (trough_firstIdx v hne)).2.1
  simpa using h

lemma drawdown_before_trough (v : List ℚ) (hne : v ≠ []) (j : ℕ) (hj : j < trough_pos v) :
    (drawdown v).getD j 0 ≠ max_drawdown v := by
  have h := (firstIdx_spec _ _ _ (trough_firstIdx v hne)).2.2 j hj
  simpa using h

lemma peak_firstIdx (v : List ℚ) (hne : v ≠ []) :
    firstIdx (fun x => decide (x = listMax (v.take (trough_pos v + 1))))
      (v.take (trough_pos v + 1)) = some (peak_pos v) := by
  have hs := firstIdx_isSome (fun x => decide (x = listMax (v.take (trough_pos v + 1))))
    (v.take (trough_pos v + 1))
    ⟨listMax (v.take (trough_pos v + 1)),
      listMax_mem _ (take_ne_nil v _ hne (by omega)), by simp⟩
  obtain ⟨i, hi⟩ := Option.isSome_iff_exists.mp hs
  rw [hi]
  unfold peak_pos
  rw [hi]
  rfl

lemma peak_le_trough (v : List ℚ) (hne : v ≠ []) : peak_pos v ≤ trough_pos v := by
  have h := (firstIdx_spec _ _ _ (peak_firstIdx v hne)).1
  rw [List.length_take] at h
  omega

lemma v_at_peak (v : List ℚ) (hne : v ≠ []) :
    v.getD (peak_pos v) 0 = listMax (v.take (trough_pos v + 1)) := by
  have h := (firstIdx_spec _ _ _ (peak_firstIdx v hne)).2.1
  rw [take_getD v _ _ (by have := peak_le_trough v hne; omega)] at h
  simpa using h

lemma v_before_peak (v : List ℚ) (hne : v ≠ []) (j : ℕ) (hj : j < peak_pos v) :
    v.getD j 0 ≠ listMax (v.take (trough_pos v + 1)) := by
  have h := (firstIdx_spec _ _ _ (peak_firstIdx v hne)).2.2 j hj
  rw [take_getD v _ _ (by have := peak_le_trough v hne; omega)] at h
  simpa using h

lemma v_trough_lt_max (v : List ℚ) (hne : v ≠ []) (hpos : ∀ x ∈ v, 0 < x)
    (hdd : max_drawdown v < 0) :
    v.getD (trough_pos v) 0 < listMax (v.take (trough_pos v + 1)) := by
  have hT := trough_lt_length v hne
  have hdt := drawdown_at_trough v hne
  rw [drawdown_getD v _ hT] at hdt
  by_contra hc
  push_neg at hc
  have hrm : 0 < running_max v (trough_pos v) := running_max_pos v hpos hne _
  have h0 : (0 : ℚ) ≤ (v.getD (trough_pos v) 0 - running_max v (trough_pos v)) /
      running_max v (trough_pos v) :=
    div_nonneg (by simpa [running_max, sub_nonneg] using hc) (le_of_lt hrm)
  rw [hdt] at h0
  linarith

/-- A row is an all-time high when its value strictly exceeds every earlier
value. -/
def isATH (v : List ℚ) (j : ℕ) : Prop :=
  j < v.length ∧ ∀ k, k < j → v.getD k 0 < v.getD j 0

lemma v_mem_take_le (v : List ℚ) (m k : ℕ) (hk : k < m) (hkl : k < v.length) :
    v.getD k 0 ≤ listMax (v.take m) := by
  rw [← take_getD v m k hk]
  refine le_listMax _ _ (getD_mem _ _ ?_)
  rw [List.length_take]
  omega

/-- C5: `calculate_max_drawdown` returns the most negative value of
`(value − running_max)/running_max` as max_drawdown; the recorded peak row is
the last all-time high strictly before the trough row (the first row
attaining the minimum drawdown); and the recovery date is the first row at or
after the trough whose value is at least the peak value, `none` when no such
row exists in the sample.  Stated for a nonempty series of positive values
with a strictly negative maximum drawdown (so that a trough exists). -/
theorem C5_max_drawdown_analysis (v : List ℚ) (hne : v ≠ [])
    (hpos : ∀ x ∈ v, 0 < x) (hdd : max_drawdown v < 0) :
    (max_drawdown v ∈ drawdown v ∧ ∀ d ∈ drawdown v, max_drawdown v ≤ d) ∧
    (∀ t, t < v.length → (drawdown v).getD t 0 =
      (v.getD t 0 - running_max v t) / running_max v t) ∧
    trough_pos v < v.length ∧
    (drawdown v).getD (trough_pos v) 0 = max_drawdown v ∧
    isATH v (peak_pos v) ∧
    peak_pos v < trough_pos v ∧
    (∀ j, peak_pos v < j → j < trough_pos v → ¬ isATH v j) ∧
    peak_value v = listMax (v.take (trough_pos v + 1)) ∧
    (∀ r, recovery_pos v = some r ↔
      trough_pos v ≤ r ∧ r < v.length ∧ peak_value v ≤ v.getD r 0 ∧
        ∀ k, trough_pos v ≤ k → k < r → v.getD k 0 < peak_value v) ∧
    (recovery_pos v = none ↔
      ∀ k, trough_pos v ≤ k → k < v.length → v.getD k 0 < peak_value v) := by
  have hT := trough_lt_length v hne
  have hpkT := peak_le_trough v hne
  have hpkval : peak_value v = listMax (v.take (trough_pos v + 1)) := v_at_peak v hne
  have hvT := v_trough_lt_max v hne hpos hdd
  have hvTpk : v.getD (trough_pos v) 0 < peak_value v := by rw [hpkval]; exact hvT
  have hpk_lt_T : peak_pos v < trough_pos v := by
    rcases Nat.lt_or_ge (peak_pos v) (trough_pos v) with h | h
    · exact h
    · have heq : peak_pos v = trough_pos v := le_antisymm hpkT h
      rw [← heq] at hvTpk
      exact absurd hvTpk (lt_irrefl _)
  have hATH : isATH v (peak_pos v) := by
    refine ⟨by omega, fun k hk => ?_⟩
    have hle : v.getD k 0 ≤ listMax (v.take (trough_pos v + 1)) :=
      v_mem_take_le v _ k (by omega) (by omega)
    have hne' := v_before_peak v hne k hk
    rw [v_at_peak v hne]
    exact lt_of_le_of_ne hle hne'
  refine ⟨⟨listMin_mem _ (drawdown_ne_nil v hne), fun d hd => listMin_le _ d hd⟩,
    fun t ht => drawdown_getD v t ht, hT, drawdown_at_trough v hne, hATH, hpk_lt_T,
    ?_, hpkval, ?_, ?_⟩
  · intro j hj1 hj2 hath
    have hMlt : listMax (v.take (trough_pos v + 1)) < v.getD j 0 := by
      have := hath.2 (peak_pos v) hj1
      rwa [v_at_peak v hne] at this
    have hle : v.getD j 0 ≤ listMax (v.take (trough_pos v + 1)) :=
      v_mem_take_le v _ j (by omega) (by omega)
    linarith
  · intro r
    by_cases hrec : trough_pos v < v.length - 1
    · constructor
      · intro hr
        unfold recovery_pos at hr
        rw [if_pos hrec] at hr
        obtain ⟨i, hi, hri⟩ := Option.map_eq_some'.mp hr
        obtain ⟨hilen, hat, hbef⟩ := firstIdx_spec _ _ _ hi
        rw [List.length_drop] at hilen
        rw [drop_getD] at hat
        simp only [decide_eq_true_eq] at hat
        have hir : i + trough_pos v = r := hri
        refine ⟨by omega, by omega, ?_, ?_⟩
        · have hTi : trough_pos v + i = r := by omega
          rwa [hTi] at hat
        · intro k hk1 hk2
          have := hbef (k - trough_pos v) (by omega)
          rw [drop_getD] at this
          have hkk : trough_pos v + (k - trough_pos v) = k := by omega
          rw [hkk] at this
          simp only [decide_eq_false_iff_not, not_le] at this
          exact this
      · rintro ⟨hTr, hrlen, hge, hbefore⟩
        have hdg : (v.drop (trough_pos v)).getD (r - trough_pos v) 0 = v.getD r 0 := by
          rw [drop_getD]
          congr 1
          omega
        have hmem : v.getD r 0 ∈ v.drop (trough_pos v) := by
          rw [← hdg]
          apply getD_mem
          rw [List.length_drop]
          omega
        have hsome := firstIdx_isSome (fun x => decide (peak_value v ≤ x))
          (v.drop (trough_pos v)) ⟨v.getD r 0, hmem, by simpa using hge⟩
        obtain ⟨i, hi⟩ := Option.isSome_iff_exists.mp hsome
        obtain ⟨hilen, hat, hbef⟩ := firstIdx_spec _ _ _ hi
        rw [List.length_drop] at hilen
        rw [drop_getD] at hat
        simp only [decide_eq_true_eq] at hat
        have hir : i + trough_pos v = r := by
          by_contra hir
          rcases Nat.lt_or_ge (i + trough_pos v) r with hlt | hge2
          · have hlt2 := hbefore (trough_pos v + i) (by omega) (by omega)
            linarith
          · have hr2 : r - trough_pos v < i := by omega
            have hb := hbef (r - trough_pos v) hr2
            rw [drop_getD] at hb
            have hkk : trough_pos v + (r - trough_pos v) = r := by omega
            rw [hkk] at hb
            simp only [decide_eq_false_iff_not, not_le] at hb
            linarith
        unfold recovery_pos
        rw [if_pos hrec, hi]
        exact congrArg some hir
    · constructor
      · intro hr
        unfold recovery_pos at hr
        rw [if_neg hrec] at hr
        simp at hr
      · rintro ⟨hTr, hrlen, hge, hbefore⟩
        have hrT : r = trough_pos v := by omega
        rw [hrT] at hge
        linarith
  · by_cases hrec : trough_pos v < v.length - 1
    · constructor
      · intro hr k hk1 hk2
        unfold recovery_pos at hr
        rw [if_pos hrec, Option.map_eq_none'] at hr
        have hdg : (v.drop (trough_pos v)).getD (k - trough_pos v) 0 = v.getD k 0 := by
          rw [drop_getD]
          congr 1
          omega
        have hmem : v.getD k 0 ∈ v.drop (trough_pos v) := by
          rw [← hdg]
          apply getD_mem
          rw [List.length_drop]
          omega
        have hk := firstIdx_none _ _ hr (v.getD k 0) hmem
        simp only [decide_eq_false_iff_not, not_le] at hk
        exact hk
      · intro hall
        unfold recovery_pos
        rw [if_pos hrec, Option.map_eq_none']
        cases hfi : firstIdx (fun x => decide (peak_value v ≤ x)) (v.drop (trough_pos v)) with
        | none => rfl
        | some i =>
          obtain ⟨hilen, hat, hbef⟩ := firstIdx_spec _ _ _ hfi
          rw [List.length_drop] at hilen
          rw [drop_getD] at hat
          simp only [decide_eq_true_eq] at hat
          have hlt := hall (trough_pos v + i) (by omega) (by omega)
          linarith
    · constructor
      · intro _ k hk1 hk2
        have hkT : k = trough_pos v := by omega
        rw [hkT]
        exact hvTpk
      · intro _
        unfold recovery_pos
        rw [if_neg hrec]

/-- Witness for C5 on a concrete portfolio-value series. -/
theorem C5_max_drawdown_analysis_witness :
    trough_pos [4, 2, 3, 5] < ([4, 2, 3, 5] : List ℚ).length ∧
    isATH [4, 2, 3, 5] (peak_pos [4, 2, 3, 5]) ∧
    peak_pos [4, 2, 3, 5] < trough_pos [4, 2, 3, 5] := by
  have H := C5_max_drawdown_analysis [4, 2, 3, 5] (by decide) (by decide)
    (by with_unfolding_all decide)
  exact ⟨H.2.2.1, H.2.2.2.2.1, H.2.2.2.2.2.1⟩

/-! ### Sortino ratio (src/performance.py, `calculate_sortino_ratio`)

The float result is determined by the branch taken and by two rationals: the
mean excess return and the sample variance of the downside returns, since the
returned value is `sqrt(periods_per_year) * mean / sqrt(variance)`.  The
result is therefore modelled intensionally: `infty` and `zero` are the
sentinel returns of the degenerate branch, `nan` is the NaN produced when the
downside sample has a single element (pandas sample std of one value is NaN,
and `NaN == 0` is false so the sentinel branch is not taken), and
`val m v` stands for the finite formula value with mean excess `m` and
downside variance `v`. -/

def excess_returns (rs : List ℚ) (rf : ℚ) (ppy : ℕ) : List ℚ :=
  rs.map (fun r => r - rf / (ppy : ℚ))

def downside_returns (ex : List ℚ) : List ℚ := ex.filter (fun x => decide (x < 0))

/-- `Series.mean()` (0 on an empty series only through the junk value 0/0,
which the source never reaches because of its emptiness guards). -/
def meanQ (l : List ℚ) : ℚ := l.sum / (l.length : ℚ)

/-- `Series.std()` squared: the sample variance with denominator n − 1,
`none` (NaN) when the series has fewer than two elements. -/
def sampleVar (l : List ℚ) : Option ℚ :=
  if l.length ≤ 1 then none
  else some ((l.map (fun x => (x - meanQ l) ^ 2)).sum / ((l.length : ℚ) - 1))

/-- The Python test `downside_returns.std() == 0`: false when the std is NaN. -/
def stdIsZero (l : List ℚ) : Bool :=
  match sampleVar l with
  | some v => decide (v = 0)
  | none => false

inductive SortinoVal where
  | infty : SortinoVal
  | zero : SortinoVal
  | nan : SortinoVal
  | val : ℚ → ℚ → SortinoVal
deriving DecidableEq

def calculate_sortino_ratio (rs : List ℚ) (rf : ℚ) (ppy : ℕ) : SortinoVal :=
  if rs = [] then .zero
  else
    if (downside_returns (excess_returns rs rf ppy)).isEmpty ||
        stdIsZero (downside_returns (excess_returns rs rf ppy)) then
      (if 0 < meanQ (excess_returns rs rf ppy) then .infty else .zero)
    else
      match sampleVar (downside_returns (excess_returns rs rf ppy)) with
      | none => .nan
      | some v => .val (meanQ (excess_returns rs rf ppy)) v

example : calculate_sortino_ratio [] 0 252 = SortinoVal.zero := by
  with_unfolding_all decide

example : calculate_sortino_ratio [1, 2] 0 252 = SortinoVal.infty := by
  with_unfolding_all decide

example : calculate_sortino_ratio [-1, 8] 0 252 = SortinoVal.nan := by
  with_unfolding_all decide

example : calculate_sortino_ratio [-1, -3, 8] 0 252 = SortinoVal.val (4/3) 2 := by
  with_unfolding_all decide

/-- C7 counterexample: on returns [−1, −1] with zero risk-free rate there ARE
negative excess returns, yet the computation returns the 0 sentinel because
the sample std of the two equal downside returns is 0 (and the mean excess
return is not positive) — the returned value is neither produced "exactly
when there are no negative excess returns" nor equal to the claimed formula
value mean/std, whose denominator is 0 here while the numerator is −1. -/
theorem C7_counterexample_equal_downside :
    calculate_sortino_ratio [-1, -1] 0 252 = SortinoVal.zero ∧
    downside_returns (excess_returns [-1, -1] 0 252) ≠ [] ∧
    stdIsZero (downside_returns (excess_returns [-1, -1] 0 252)) = true ∧
    meanQ (excess_returns [-1, -1] 0 252) = -1 := by
  with_unfolding_all decide

example : calculate_sortino_ratio [-1, -1, 7] 0 252 = SortinoVal.infty := by
  with_unfolding_all decide

example : calculate_sortino_ratio [-1/100, -1/100, 7/100] 0 252 = SortinoVal.infty := by
  with_unfolding_all decide

lemma sum_sq_nonneg (l : List ℚ) (m : ℚ) : 0 ≤ (l.map (fun x => (x - m) ^ 2)).sum := by
  induction l with
  | nil => simp
  | cons y ys ih =>
    simp only [List.map_cons, List.sum_cons]
    have := sq_nonneg (y - m)
    linarith

lemma sum_sq_eq_zero_iff (l : List ℚ) (m : ℚ) :
    (l.map (fun x => (x - m) ^ 2)).sum = 0 ↔ ∀ x ∈ l, x = m := by
  induction l with
  | nil => simp
  | cons y ys ih =>
    simp only [List.map_cons, List.sum_cons, List.mem_cons]
    constructor
    · intro h
      have hy := sq_nonneg (y - m)
      have hs := sum_sq_nonneg ys m
      have hy0 : (y - m) ^ 2 = 0 := by linarith
      have hys : (ys.map (fun x => (x - m) ^ 2)).sum = 0 := by linarith
      have hym : y = m := by
        have := pow_eq_zero_iff (n := 2) (by omega) |>.mp hy0
        linarith [sub_eq_zero.mp this]
      intro x hx
      rcases hx with hx | hx
      · rw [hx]; exact hym
      · exact ih.mp hys x hx
    · intro h
      have hy : y = m := h y (Or.inl rfl)
      have hall : ∀ x ∈ ys, x = m := fun x hx => h x (Or.inr hx)
      rw [ih.mpr hall, hy]
      simp

lemma stdIsZero_iff (l : List ℚ) :
    stdIsZero l = true ↔ 2 ≤ l.length ∧ ∀ x ∈ l, x = meanQ l := by
  unfold stdIsZero sampleVar
  by_cases h : l.length ≤ 1
  · rw [if_pos h]
    constructor
    · intro hh; exact absurd hh (by simp)
    · rintro ⟨h2, _⟩; omega
  · rw [if_neg h]
    simp only [decide_eq_true_eq]
    have hlen : (2 : ℕ) ≤ l.length := by omega
    have hden : ((l.length : ℚ) - 1) ≠ 0 := by
      have h2 : (2 : ℚ) ≤ (l.length : ℚ) := by exact_mod_cast hlen
      linarith
    rw [div_eq_zero_iff]
    constructor
    · rintro (hs | hd)
      · exact ⟨hlen, (sum_sq_eq_zero_iff l (meanQ l)).mp hs⟩
      · exact absurd hd hden
    · rintro ⟨_, hall⟩
      exact Or.inl ((sum_sq_eq_zero_iff l (meanQ l)).mpr hall)

/-- C7 amended: the sortino computation returns the sentinel (+infinity when
the mean excess return is positive, else 0) exactly when the downside sample
is empty OR consists of at least two equal values (sample std 0); with
exactly one negative excess return the result is the NaN of a single-sample
std; in the remaining cases it returns the formula value determined by the
mean excess return and the positive downside sample variance. -/
theorem C7_amended_sortino (rs : List ℚ) (rf : ℚ) (ppy : ℕ) :
    ((calculate_sortino_ratio rs rf ppy = SortinoVal.infty ∨
      calculate_sortino_ratio rs rf ppy = SortinoVal.zero) ↔
      (downside_returns (excess_returns rs rf ppy) = [] ∨
        (2 ≤ (downside_returns (excess_returns rs rf ppy)).length ∧
          ∀ x ∈ downside_returns (excess_returns rs rf ppy),
            x = meanQ (downside_returns (excess_returns rs rf ppy))))) ∧
    (calculate_sortino_ratio rs rf ppy = SortinoVal.infty →
      0 < meanQ (excess_returns rs rf ppy)) ∧
    (calculate_sortino_ratio rs rf ppy = SortinoVal.zero →
      ¬ 0 < meanQ (excess_returns rs rf ppy)) ∧
    (downside_returns (excess_returns rs rf ppy) ≠ [] →
      stdIsZero (downside_returns (excess_returns rs rf ppy)) = false →
      calculate_sortino_ratio rs rf ppy =
        (match sampleVar (downside_returns (excess_returns rs rf ppy)) with
          | none => SortinoVal.nan
          | some v => SortinoVal.val (meanQ (excess_returns rs rf ppy)) v)) := by
  by_cases hrs : rs = []
  · subst hrs
    refine ⟨?_, ?_, ?_, ?_⟩
    · simp [calculate_sortino_ratio, excess_returns, downside_returns]
    · intro h
      simp [calculate_sortino_ratio] at h
    · intro _
      simp [excess_returns, meanQ]
    · intro h
      simp [excess_returns, downside_returns] at h
  · unfold calculate_sortino_ratio
    rw [if_neg hrs]
    by_cases hcond : ((downside_returns (excess_returns rs rf ppy)).isEmpty ||
        stdIsZero (downside_returns (excess_returns rs rf ppy))) = true
    · rw [if_pos hcond]
      have hrhs : downside_returns (excess_returns rs rf ppy) = [] ∨
          (2 ≤ (downside_returns (excess_returns rs rf ppy)).length ∧
            ∀ x ∈ downside_returns (excess_returns rs rf ppy),
              x = meanQ (downside_returns (excess_returns rs rf ppy))) := by
        rcases Bool.or_eq_true_iff.mp hcond with hc | hc
        · exact Or.inl (List.isEmpty_iff.mp hc)
        · exact Or.inr ((stdIsZero_iff _).mp hc)
      refine ⟨?_, ?_, ?_, ?_⟩
      · constructor
        · intro _; exact hrhs
        · intro _
          by_cases hm : 0 < meanQ (excess_returns rs rf ppy)
          · rw [if_pos hm]; exact Or.inl rfl
          · rw [if_neg hm]; exact Or.inr rfl
      · intro h
        by_cases hm : 0 < meanQ (excess_returns rs rf ppy)
        · exact hm
        · rw [if_neg hm] at h
          exact absurd h (by simp)
      · intro h
        by_cases hm : 0 < meanQ (excess_returns rs rf ppy)
        · rw [if_pos hm] at h
          exact absurd h (by simp)
        · exact hm
      · intro hne hstd
        rcases hrhs with hc | hc
        · exact absurd hc hne
        · rw [(stdIsZero_iff _).mpr hc] at hstd
          exact absurd hstd (by simp)
    · rw [if_neg hcond]
      have hsplit := Bool.or_eq_false_iff.mp (Bool.not_eq_true _ |>.mp hcond)
      have hne : downside_returns (excess_returns rs rf ppy) ≠ [] := by
        intro h
        have : (downside_returns (excess_returns rs rf ppy)).isEmpty = true := by
          rw [h]; rfl
        rw [this] at hsplit
        exact absurd hsplit.1 (by simp)
      refine ⟨?_, ?_, ?_, ?_⟩
      · constructor
        · intro h
          rcases h with h | h <;>
            · cases hv : sampleVar (downside_returns (excess_returns rs rf ppy)) <;>
                rw [hv] at h <;> simp at h
        · intro h
          rcases h with h | h
          · exact absurd h hne
          · have := (stdIsZero_iff _).mpr h
            rw [this] at hsplit
            exact absurd hsplit.2 (by simp)
      · intro h
        cases hv : sampleVar (downside_returns (excess_returns rs rf ppy)) <;>
          rw [hv] at h <;> simp at h
      · intro h
        cases hv : sampleVar (downside_returns (excess_returns rs rf ppy)) <;>
          rw [hv] at h <;> simp at h
      · intro _ _
        rfl

/-- Witness for the amended C7 on a concrete return series with two distinct
downside returns. -/
theorem C7_amended_sortino_witness :
    calculate_sortino_ratio [-1, -3, 8] 0 252 =
      (match sampleVar (downside_returns (excess_returns [-1, -3, 8] 0 252)) with
        | none => SortinoVal.nan
        | some v => SortinoVal.val (meanQ (excess_returns [-1, -3, 8] 0 252)) v) :=
  (C7_amended_sortino [-1, -3, 8] 0 252).2.2.2 (by with_unfolding_all decide)
    (by with_unfolding_all decide)

/-! ### Pair selector (src/pair_selector.py)

The per-pair numerical work of the scans (correlation, the Engle-Granger
cointegration test, the OLS hedge ratio, spread statistics, sorting) is
abstracted as oracle functions supplied to the control flow under
verification: `select_best_pair` only inspects emptiness and takes the head
of the ranked candidate list each scan returns, and
`find_cointegrated_pairs` stores its result on the selector.  The fallback
constants 0.20, 0.6 and 0.30 are the source's literals. -/

structure PairCand where
  symbol1 : String
  symbol2 : String
  correlation : ℚ
  cointegration_pvalue : ℚ
deriving DecidableEq

/-- The message of the `ValueError` raised by `select_best_pair` when every
level of the cascade is empty. -/
def no_suitable_msg : String :=
  "No suitable pairs found. Try:\n- Different stocks (e.g., same sector ETFs)\n- Lower correlation threshold\n- Longer time period"

/-- `select_best_pair`: strict cointegration scan first; if empty and the
fallback is enabled, the lenient correlation scan with the caller's
min_correlation and max_pvalue = 0.20, then with min_correlation = 0.6 and
max_pvalue = 0.30; raises when everything is empty, else returns the head of
the first nonempty level. -/
def select_best_pair (findCoint : ℚ → List PairCand)
    (findCorr : ℚ → ℚ → List PairCand)
    (min_correlation : ℚ) (use_fallback : Bool) : Except String PairCand :=
  let pairs₁ := findCoint min_correlation
  let pairs₂ :=
    if pairs₁.isEmpty && use_fallback then
      let f := findCorr min_correlation (20/100)
      if f.isEmpty then findCorr (60/100) (30/100) else f
    else pairs₁
  match pairs₂ with
  | [] => Except.error no_suitable_msg
  | p :: _ => Except.ok p

/-- The cascade exactly as the claim words it: the first fallback level runs
with min_correlation = 0.7 (not the caller's argument).  Kept to compare the
claim's description against the source's behavior. -/
def select_best_pair_claimed (findCoint : ℚ → List PairCand)
    (findCorr : ℚ → ℚ → List PairCand)
    (min_correlation : ℚ) (use_fallback : Bool) : Except String PairCand :=
  let pairs₁ := findCoint min_correlation
  let pairs₂ :=
    if pairs₁.isEmpty && use_fallback then
      let f := findCorr (70/100) (20/100)
      if f.isEmpty then findCorr (60/100) (30/100) else f
    else pairs₁
  match pairs₂ with
  | [] => Except.error no_suitable_msg
  | p :: _ => Except.ok p

deriving instance DecidableEq for Except

def pairA : PairCand := ⟨"AAPL", "MSFT", 3/4, 1/10⟩

def pairB : PairCand := ⟨"GOOGL", "AMZN", 7/10, 2/10⟩

def fcEx : ℚ → List PairCand := fun _ => []

def frEx : ℚ → ℚ → List PairCand := fun c _ =>
  if c = 7/10 then [pairA] else if c = 6/10 then [pairB] else []

/-- C6 counterexample: called with min_correlation = 0.5 and oracles whose
lenient scan finds a pair at correlation threshold 0.7 but none at 0.5, the
source's first fallback level (which reuses the caller's min_correlation)
skips to the 0.6/0.30 level and returns a different pair than the claim's
described cascade (first fallback hard-wired to 0.7/0.20) would return. -/
theorem C6_counterexample_fallback_params :
    select_best_pair fcEx frEx (1/2) true = Except.ok pairB ∧
    select_best_pair_claimed fcEx frEx (1/2) true = Except.ok pairA ∧
    pairA ≠ pairB := by
  with_unfolding_all decide

/-- C6 amended: `select_best_pair` runs the strict scan with the caller's
min_correlation; if it is empty and fallback is enabled it retries with the
caller's min_correlation and max_pvalue = 0.20, then with
min_correlation = 0.6 and max_pvalue = 0.30; if every level is empty it
fails with the fixed "No suitable pairs found" error message (suggesting
remedies, without echoing the parameters tried) rather than returning a
default, and otherwise returns the top-ranked candidate of the first level
that succeeds. -/
theorem C6_amended_fallback_cascade (fc : ℚ → List PairCand)
    (fr : ℚ → ℚ → List PairCand) (c : ℚ) (fb : Bool) :
    (∀ p ps, fc c = p :: ps → select_best_pair fc fr c fb = Except.ok p) ∧
    (fc c = [] → fb = true → ∀ p ps, fr c (20/100) = p :: ps →
      select_best_pair fc fr c fb = Except.ok p) ∧
    (fc c = [] → fb = true → fr c (20/100) = [] →
      ∀ p ps, fr (60/100) (30/100) = p :: ps →
        select_best_pair fc fr c fb = Except.ok p) ∧
    (fc c = [] → fb = true → fr c (20/100) = [] → fr (60/100) (30/100) = [] →
      select_best_pair fc fr c fb = Except.error no_suitable_msg) ∧
    (fc c = [] → fb = false →
      select_best_pair fc fr c fb = Except.error no_suitable_msg) := by
  refine ⟨?_, ?_, ?_, ?_, ?_⟩
  · intro p ps h
    simp [select_best_pair, h]
  · intro h0 hfb p ps hf
    simp [select_best_pair, h0, hfb, hf]
  · intro h0 hfb hf1 p ps hf2
    simp [select_best_pair, h0, hfb, hf1, hf2]
  · intro h0 hfb hf1 hf2
    simp [select_best_pair, h0, hfb, hf1, hf2]
  · intro h0 hfb
    simp [select_best_pair, h0, hfb]

/-- Witness for the amended C6: the second fallback level fires. -/
theorem C6_amended_fallback_cascade_witness :
    select_best_pair fcEx frEx (1/2) true = Except.ok pairB :=
  (C6_amended_fallback_cascade fcEx frEx (1/2) true).2.2.1 rfl rfl
    (by with_unfolding_all decide) pairB [] (by with_unfolding_all decide)

/-- The selector's state: the constructor parameter `pvalue_threshold` and
the `pairs` attribute initialized to `[]` and reassigned by every
`find_cointegrated_pairs` call. -/
structure PairSelectorState where
  pvalue_threshold : ℚ
  pairs : List PairCand
deriving DecidableEq

/-- `find_cointegrated_pairs`: the pairwise scan reads `self.pvalue_threshold`
(abstracted as the oracle `scan`), sorts its candidates, stores them on the
selector (`self.pairs = cointegrated_pairs`, src/pair_selector.py line 211)
and returns them. -/
def find_cointegrated_pairs (scan : ℚ → ℚ → List PairCand)
    (s : PairSelectorState) (min_correlation : ℚ) :
    PairSelectorState × List PairCand :=
  let result := scan s.pvalue_threshold min_correlation
  ({ s with pairs := result }, result)

def scanEx : ℚ → ℚ → List PairCand := fun _ _ => [pairA]

/-- C9 counterexample: a scan that finds one pair changes the selector state
(`self.pairs` goes from `[]` to the result), so the pair-selection scan is
not free of component-held state mutation. -/
theorem C9_counterexample_selector_mutation :
    (find_cointegrated_pairs scanEx ⟨1/20, []⟩ (7/10)).1 ≠ ⟨1/20, []⟩ := by
  with_unfolding_all decide

/-- C9 amended: `find_cointegrated_pairs` computes its result purely from its
explicit inputs and the selector's `pvalue_threshold`, leaves
`pvalue_threshold` unchanged, and mutates exactly one piece of
component-held state: it records the returned candidate list on the selector
(`self.pairs`).  A repeated call on the updated state therefore returns the
same result. -/
theorem C9_amended_scan_state (scan : ℚ → ℚ → List PairCand)
    (s : PairSelectorState) (c : ℚ) :
    (find_cointegrated_pairs scan s c).1.pvalue_threshold = s.pvalue_threshold ∧
    (find_cointegrated_pairs scan s c).1.pairs = (find_cointegrated_pairs scan s c).2 ∧
    (find_cointegrated_pairs scan s c).2 = scan s.pvalue_threshold c ∧
    (find_cointegrated_pairs scan (find_cointegrated_pairs scan s c).1 c).2 =
      (find_cointegrated_pairs scan s c).2 :=
  ⟨rfl, rfl, rfl, rfl⟩
